import Mathlib

/-!
Shallow embedding of `src/include/swift/Basic/Demangler.h` (swift demangler:
bump-pointer `NodeFactory` arena and the `Demangler` grammar-engine state),
together with proofs of the specified properties.

Memory is modelled with `Nat` addresses and a byte store `mem : Nat → Nat`.
`malloc` is modelled as a deterministic fresh-address source (`nextAddr`):
each call returns the current `nextAddr` and advances it by the allocation
size, capturing that a fresh slab is disjoint from all memory handed out
before.  `sizeof(Slab)` (a single pointer) is modelled as 8 bytes.
-/

namespace SwiftDemangle

/-- Size of the `Slab` header (one `Slab *Previous` pointer). -/
def slabHeaderSize : Nat := 8

/-- NodeFactory::align: `(Ptr + Alignment - 1) & ~(Alignment - 1)`.
For the power-of-two alignments C++ guarantees, the mask is equivalent to
rounding `Ptr + Alignment - 1` down to a multiple of `Alignment`. -/
def align (p a : Nat) : Nat :=
  (p + a - 1) - (p + a - 1) % a

/-- State of a `NodeFactory`: the bump-pointer arena.
`curPtr`/endPtr mirror `CurPtr`/`End`; `slabs` mirrors the linked slab list
(most recent first), each entry `(start, capacity)` being the tail-allocated
payload region of one slab; `slabSize` mirrors `SlabSize`; `nextAddr` is the
next address `malloc` will return; `mem` is the byte store. -/
structure ArenaState where
  curPtr : Nat
  endPtr : Nat
  slabSize : Nat
  nextAddr : Nat
  slabs : List (Nat × Nat)
  mem : Nat → Nat

/-- NodeFactory::Allocate, for an object of `objectSize` bytes
(`NumObjects * sizeof(T)`) with alignment `al` (`alignof(T)`).
Returns the address of the allocated region and the new state.
In the new-slab branch the code writes `newSlab->Previous`, modelled as a
write of the `slabHeaderSize` header bytes at the slab's base address. -/
def ArenaState.Allocate (s : ArenaState) (objectSize al : Nat) :
    Nat × ArenaState :=
  let cur := align s.curPtr al
  if s.endPtr < cur + objectSize then
    -- malloc a new slab; SlabSize = max(SlabSize * 2, ObjectSize)
    let slabSize := max (s.slabSize * 2) objectSize
    let allocSize := slabHeaderSize + slabSize
    let base := s.nextAddr
    let start := base + slabHeaderSize
    (start,
      { curPtr := start + objectSize
        endPtr := start + slabSize
        slabSize := slabSize
        nextAddr := s.nextAddr + allocSize
        slabs := (start, slabSize) :: s.slabs
        mem := fun a => if base ≤ a ∧ a < base + slabHeaderSize then 0 else s.mem a })
  else
    (cur, { s with curPtr := cur + objectSize })

/-- Growth computation of NodeFactory::Reallocate's copy branch:
`Growth = (MinGrowth >= 4 ? MinGrowth : 4); if (Growth < Capacity * 2)
Growth = Capacity * 2;`. -/
def reallocGrowth (minGrowth capacity : Nat) : Nat :=
  let growth0 := if minGrowth ≥ 4 then minGrowth else 4
  if growth0 < capacity * 2 then capacity * 2 else growth0

/-- NodeFactory::Reallocate for element type `T` with `sizeof(T) = sizeT`
and `alignof(T) = alT`.  Takes the current `Objects` base address, the
current `Capacity` (in elements) and `MinGrowth`; returns the (possibly
new) base address, the new capacity, and the new state.  The copy branch
performs `memcpy(NewObjects, Objects, OldAllocSize)`. -/
def ArenaState.Reallocate (s : ArenaState)
    (objects capacity minGrowth sizeT alT : Nat) :
    Nat × Nat × ArenaState :=
  let oldAllocSize := capacity * sizeT
  let additionalAlloc := minGrowth * sizeT
  if objects + oldAllocSize = s.curPtr ∧ s.curPtr + additionalAlloc ≤ s.endPtr then
    (objects, capacity + minGrowth, { s with curPtr := s.curPtr + additionalAlloc })
  else
    let growth := reallocGrowth minGrowth capacity
    let res := s.Allocate ((capacity + growth) * sizeT) alT
    let newObjects := res.1
    let s1 := res.2
    (newObjects, capacity + growth,
      { s1 with mem := fun a =>
          if newObjects ≤ a ∧ a < newObjects + oldAllocSize
          then s1.mem (objects + (a - newObjects))
          else s1.mem a })

/-- Modelled from the spec: `NodeFactory::clear` is only declared in the
header; its body lives in `Demangler.cpp`, which is not part of the sources.
Per the spec it moves the frontier back to the start of the most recently
allocated slab, frees all slabs after that one, and preserves the grown
`SlabSize`. -/
def ArenaState.clear (s : ArenaState) : ArenaState :=
  match s.slabs with
  | [] => s
  | (start, cap) :: _ =>
      { s with curPtr := start, endPtr := start + cap, slabs := [(start, cap)] }

/-- One NodeFactory operation, for stating properties over operation
sequences. -/
inductive FactoryOp where
  | alloc (objectSize al : Nat)
  | realloc (objects capacity minGrowth sizeT alT : Nat)
  | clearOp

/-- Apply one operation to an arena state (discarding returned values). -/
def FactoryOp.apply : FactoryOp → ArenaState → ArenaState
  | .alloc sz al, s => (s.Allocate sz al).2
  | .realloc o c g szT alT, s => (s.Reallocate o c g szT alT).2.2
  | .clearOp, s => s.clear

/-- Run a sequence of NodeFactory operations. -/
def runOps : List FactoryOp → ArenaState → ArenaState
  | [], s => s
  | op :: ops, s => runOps ops (op.apply s)

/-- Run a sequence of `Allocate` requests `(objectSize, alignment)`,
collecting the returned regions as `(address, objectSize)` pairs. -/
def allocSeq (s : ArenaState) : List (Nat × Nat) → List (Nat × Nat) × ArenaState
  | [] => ([], s)
  | (sz, al) :: rest =>
      let r := s.Allocate sz al
      let res := allocSeq r.2 rest
      ((r.1, sz) :: res.1, res.2)

/- ### Basic lemmas about `align` -/

theorem align_ge {a : Nat} (p : Nat) (ha : 0 < a) : p ≤ align p a := by
  unfold align
  have h := Nat.mod_lt (p + a - 1) ha
  omega

theorem align_le {a : Nat} (p : Nat) : align p a ≤ p + a - 1 := by
  unfold align
  omega

/-- Characterization of `Allocate` when the request fits in the current
slab: the bump pointer advances, nothing else changes. -/
theorem Allocate_fits (s : ArenaState) (sz al : Nat)
    (h : align s.curPtr al + sz ≤ s.endPtr) :
    s.Allocate sz al =
      (align s.curPtr al, { s with curPtr := align s.curPtr al + sz }) := by
  unfold ArenaState.Allocate
  simp only [if_neg (by omega : ¬ s.endPtr < align s.curPtr al + sz)]

/-- Characterization of `Allocate` when the request does not fit: a new
slab of capacity `max (slabSize * 2) sz` is carved out of fresh memory. -/
theorem Allocate_newSlab (s : ArenaState) (sz al : Nat)
    (h : s.endPtr < align s.curPtr al + sz) :
    s.Allocate sz al =
      (s.nextAddr + slabHeaderSize,
        { curPtr := s.nextAddr + slabHeaderSize + sz
          endPtr := s.nextAddr + slabHeaderSize + max (s.slabSize * 2) sz
          slabSize := max (s.slabSize * 2) sz
          nextAddr := s.nextAddr + (slabHeaderSize + max (s.slabSize * 2) sz)
          slabs := (s.nextAddr + slabHeaderSize, max (s.slabSize * 2) sz) :: s.slabs
          mem := fun a =>
            if s.nextAddr ≤ a ∧ a < s.nextAddr + slabHeaderSize then 0
            else s.mem a }) := by
  unfold ArenaState.Allocate
  simp only [if_pos h]

/- ### Claim C5 -/

theorem Allocate_curPtr_le_endPtr (s : ArenaState) (sz al : Nat) :
    (s.Allocate sz al).2.curPtr ≤ (s.Allocate sz al).2.endPtr := by
  by_cases h : s.endPtr < align s.curPtr al + sz
  · rw [Allocate_newSlab s sz al h]
    simp only
    have : sz ≤ max (s.slabSize * 2) sz := le_max_right _ _
    omega
  · rw [Allocate_fits s sz al (by omega)]
    simp only
    omega

theorem Reallocate_curPtr_le_endPtr (s : ArenaState)
    (o c g szT alT : Nat) :
    (s.Reallocate o c g szT alT).2.2.curPtr ≤
      (s.Reallocate o c g szT alT).2.2.endPtr := by
  unfold ArenaState.Reallocate
  by_cases h : o + c * szT = s.curPtr ∧ s.curPtr + g * szT ≤ s.endPtr
  · simp only [if_pos h]
    omega
  · simp only [if_neg h]
    exact Allocate_curPtr_le_endPtr s _ _

/-- C5: the invariant `CurPtr ≤ End` holds after every `Allocate` and every
`Reallocate` call, for all object sizes, alignments and growth amounts
(indeed from any starting state). -/
theorem claim_C5_frontier_within_slab :
    ∀ (s : ArenaState) (sz al o c g szT alT : Nat),
      (s.Allocate sz al).2.curPtr ≤ (s.Allocate sz al).2.endPtr ∧
      (s.Reallocate o c g szT alT).2.2.curPtr ≤
        (s.Reallocate o c g szT alT).2.2.endPtr := by
  intro s sz al o c g szT alT
  exact ⟨Allocate_curPtr_le_endPtr s sz al,
         Reallocate_curPtr_le_endPtr s o c g szT alT⟩

/- ### Claim C4 -/

theorem Allocate_slabSize_mono (s : ArenaState) (sz al : Nat) :
    s.slabSize ≤ (s.Allocate sz al).2.slabSize := by
  by_cases h : s.endPtr < align s.curPtr al + sz
  · rw [Allocate_newSlab s sz al h]
    simp only
    omega
  · rw [Allocate_fits s sz al (by omega)]

theorem Reallocate_slabSize_mono (s : ArenaState) (o c g szT alT : Nat) :
    s.slabSize ≤ (s.Reallocate o c g szT alT).2.2.slabSize := by
  unfold ArenaState.Reallocate
  by_cases h : o + c * szT = s.curPtr ∧ s.curPtr + g * szT ≤ s.endPtr
  · simp only [if_pos h]
    exact le_refl _
  · simp only [if_neg h]
    exact Allocate_slabSize_mono s _ _

theorem clear_slabSize_eq (s : ArenaState) : s.clear.slabSize = s.slabSize := by
  unfold ArenaState.clear
  cases s.slabs with
  | nil => rfl
  | cons hd tl => cases hd; rfl

theorem apply_slabSize_mono (op : FactoryOp) (s : ArenaState) :
    s.slabSize ≤ (op.apply s).slabSize := by
  cases op with
  | alloc sz al => exact Allocate_slabSize_mono s sz al
  | realloc o c g szT alT => exact Reallocate_slabSize_mono s o c g szT alT
  | clearOp =>
      rw [FactoryOp.apply, clear_slabSize_eq]

theorem runOps_slabSize_mono (ops : List FactoryOp) (s : ArenaState) :
    s.slabSize ≤ (runOps ops s).slabSize := by
  induction ops generalizing s with
  | nil => exact le_refl _
  | cons op ops ih =>
      calc s.slabSize ≤ (op.apply s).slabSize := apply_slabSize_mono op s
        _ ≤ (runOps ops (op.apply s)).slabSize := ih (op.apply s)

/-- C4: `SlabSize` is monotonically non-decreasing over every sequence of
NodeFactory operations; each slab allocation sets it to
`max (2 * SlabSize) objectSize`, and `clear` never changes it. -/
theorem claim_C4_slabSize_monotone :
    (∀ (ops : List FactoryOp) (s : ArenaState),
        s.slabSize ≤ (runOps ops s).slabSize) ∧
    (∀ (s : ArenaState) (sz al : Nat),
        s.endPtr < align s.curPtr al + sz →
        (s.Allocate sz al).2.slabSize = max (s.slabSize * 2) sz) ∧
    (∀ s : ArenaState, s.clear.slabSize = s.slabSize) := by
  refine ⟨runOps_slabSize_mono, ?_, clear_slabSize_eq⟩
  intro s sz al h
  rw [Allocate_newSlab s sz al h]

/-- Witness for C4: a concrete run in which the second allocation does not
fit (slab capacity 10, frontier at its end), so a new slab of capacity
`max (2 * 10) 4 = 20` is allocated. -/
theorem claim_C4_slabSize_monotone_witness :
    (let s : ArenaState :=
       { curPtr := 18, endPtr := 18, slabSize := 10, nextAddr := 100,
         slabs := [(8, 10)], mem := fun _ => 0 }
     s.slabSize ≤ (runOps [.alloc 4 1, .clearOp] s).slabSize ∧
     (s.Allocate 4 1).2.slabSize = max (s.slabSize * 2) 4) := by
  refine ⟨claim_C4_slabSize_monotone.1 _ _, ?_⟩
  exact claim_C4_slabSize_monotone.2.1 _ 4 1 (by norm_num [align])

/- ### Claim C2 -/

/-- Upper bound on the memory a request list can consume when every request
is served from the current slab: each request `(sz, al)` advances the
frontier by at most `sz + (al - 1)` bytes (alignment padding plus payload). -/
def sumReq : List (Nat × Nat) → Nat
  | [] => 0
  | (sz, al) :: rest => (sz + (al - 1)) + sumReq rest

/-- Main induction for C2: if the total aligned size of the requests fits in
the space remaining in the current slab, every request is served by bumping
the pointer, all returned regions lie between the old and the new frontier,
and they are pairwise disjoint in increasing address order. -/
theorem allocSeq_spec (reqs : List (Nat × Nat)) (s : ArenaState)
    (hal : ∀ r ∈ reqs, 0 < r.2)
    (hfit : s.curPtr + sumReq reqs ≤ s.endPtr) :
    (∀ r ∈ (allocSeq s reqs).1,
        s.curPtr ≤ r.1 ∧ r.1 + r.2 ≤ (allocSeq s reqs).2.curPtr) ∧
    (allocSeq s reqs).1.Pairwise (fun r1 r2 => r1.1 + r1.2 ≤ r2.1) ∧
    (allocSeq s reqs).2.endPtr = s.endPtr ∧
    s.curPtr ≤ (allocSeq s reqs).2.curPtr := by
  induction reqs generalizing s with
  | nil =>
      refine ⟨?_, ?_, rfl, le_refl _⟩
      · intro r hr
        simp [allocSeq] at hr
      · simp [allocSeq]
  | cons req rest ih =>
      obtain ⟨sz, al⟩ := req
      have hal0 : 0 < al := hal (sz, al) (List.mem_cons_self _ _)
      have halrest : ∀ r ∈ rest, 0 < r.2 := fun r hr => hal r (List.mem_cons_of_mem _ hr)
      have hsum : s.curPtr + ((sz + (al - 1)) + sumReq rest) ≤ s.endPtr := hfit
      have ha_ge : s.curPtr ≤ align s.curPtr al := align_ge s.curPtr hal0
      have ha_le : align s.curPtr al ≤ s.curPtr + al - 1 := align_le s.curPtr
      have hfits : align s.curPtr al + sz ≤ s.endPtr := by omega
      have hstep := Allocate_fits s sz al hfits
      set a := align s.curPtr al with hadef
      have hrest : ({ s with curPtr := a + sz } : ArenaState).curPtr + sumReq rest ≤
          ({ s with curPtr := a + sz } : ArenaState).endPtr := by
        simp only
        omega
      have ihr := ih { s with curPtr := a + sz } halrest hrest
      simp only [allocSeq, hstep]
      refine ⟨?_, ?_, ihr.2.2.1, ?_⟩
      · intro r hr
        rcases List.mem_cons.mp hr with hr | hr
        · subst hr
          exact ⟨ha_ge, le_trans (le_refl _) ihr.2.2.2⟩
        · have h1 := (ihr.1 r hr).1
          have h2 := (ihr.1 r hr).2
          simp only at h1
          exact ⟨by omega, h2⟩
      · refine List.Pairwise.cons ?_ ihr.2.1
        intro r hr
        have h1 := (ihr.1 r hr).1
        simp only at h1
        exact h1
      · have := ihr.2.2.2
        simp only at this
        omega

/-- C2: (a) for a sequence of `Allocate` requests whose total aligned size
fits in the remaining capacity of the current slab, the returned regions
are pairwise disjoint and ordered by increasing address; (b) when a request
does not fit, a new slab is allocated whose capacity is exactly
`max (2 * SlabSize) objectSize`, and the byte contents of all previously
handed-out memory (which lies below the fresh slab's address) are
unchanged. -/
theorem claim_C2_allocate_disjoint_growth :
    (∀ (s : ArenaState) (reqs : List (Nat × Nat)),
        (∀ r ∈ reqs, 0 < r.2) →
        s.curPtr + sumReq reqs ≤ s.endPtr →
        (allocSeq s reqs).1.Pairwise (fun r1 r2 => r1.1 + r1.2 ≤ r2.1)) ∧
    (∀ (s : ArenaState) (sz al : Nat),
        s.endPtr < align s.curPtr al + sz →
        (s.Allocate sz al).2.slabSize = max (s.slabSize * 2) sz ∧
        (s.Allocate sz al).2.slabs =
          ((s.Allocate sz al).1, max (s.slabSize * 2) sz) :: s.slabs ∧
        (∀ a, a < s.nextAddr → (s.Allocate sz al).2.mem a = s.mem a)) := by
  constructor
  · intro s reqs hal hfit
    exact (allocSeq_spec reqs s hal hfit).2.1
  · intro s sz al h
    rw [Allocate_newSlab s sz al h]
    refine ⟨rfl, rfl, ?_⟩
    intro a ha
    simp only
    rw [if_neg (by omega)]

/-- A small concrete arena used by the witnesses: one slab `[8, 108)` of
capacity 100, frontier at 8, next fresh address 208. -/
def demoArena : ArenaState :=
  { curPtr := 8, endPtr := 108, slabSize := 100, nextAddr := 208,
    slabs := [(8, 100)], mem := fun _ => 0 }

/-- Witness for C2 at a concrete arena: three in-slab requests give
disjoint increasing regions, and an oversized request triggers a fresh
slab of capacity `max 200 50`. -/
theorem claim_C2_allocate_disjoint_growth_witness :
    (allocSeq demoArena [(4, 1), (3, 2), (5, 4)]).1.Pairwise
        (fun r1 r2 => r1.1 + r1.2 ≤ r2.1) ∧
    (({ demoArena with curPtr := 104 } : ArenaState).Allocate 50 1).2.slabSize =
        max (({ demoArena with curPtr := 104 } : ArenaState).slabSize * 2) 50 ∧
    (({ demoArena with curPtr := 104 } : ArenaState).Allocate 50 1).2.slabs =
        ((({ demoArena with curPtr := 104 } : ArenaState).Allocate 50 1).1,
          max (({ demoArena with curPtr := 104 } : ArenaState).slabSize * 2) 50) ::
          ({ demoArena with curPtr := 104 } : ArenaState).slabs ∧
    (∀ a, a < ({ demoArena with curPtr := 104 } : ArenaState).nextAddr →
        (({ demoArena with curPtr := 104 } : ArenaState).Allocate 50 1).2.mem a =
          ({ demoArena with curPtr := 104 } : ArenaState).mem a) := by
  have h1 := claim_C2_allocate_disjoint_growth.1 demoArena [(4, 1), (3, 2), (5, 4)]
      (by decide) (by norm_num [sumReq, demoArena])
  have h2 := claim_C2_allocate_disjoint_growth.2
      ({ demoArena with curPtr := 104 } : ArenaState) 50 1
      (by norm_num [align, demoArena])
  exact ⟨h1, h2⟩

/- ### Claim C3 -/

theorem reallocGrowth_bounds (mg c : Nat) :
    mg ≤ reallocGrowth mg c ∧ 4 ≤ reallocGrowth mg c ∧
    c * 2 ≤ reallocGrowth mg c := by
  have h : reallocGrowth mg c =
      if (if mg ≥ 4 then mg else 4) < c * 2 then c * 2
      else (if mg ≥ 4 then mg else 4) := rfl
  rw [h]
  split_ifs <;> omega

/-- Characterization of `Reallocate` in the grow-in-place case. -/
theorem Reallocate_inplace (s : ArenaState) (o c mg szT alT : Nat)
    (h : o + c * szT = s.curPtr ∧ s.curPtr + mg * szT ≤ s.endPtr) :
    s.Reallocate o c mg szT alT =
      (o, c + mg, { s with curPtr := s.curPtr + mg * szT }) := by
  unfold ArenaState.Reallocate
  rw [if_pos h]

/-- Characterization of `Reallocate` in the copy case. -/
theorem Reallocate_copy (s : ArenaState) (o c mg szT alT : Nat)
    (h : ¬ (o + c * szT = s.curPtr ∧ s.curPtr + mg * szT ≤ s.endPtr)) :
    s.Reallocate o c mg szT alT =
      ((s.Allocate ((c + reallocGrowth mg c) * szT) alT).1,
        c + reallocGrowth mg c,
        { (s.Allocate ((c + reallocGrowth mg c) * szT) alT).2 with
            mem := fun a =>
              if (s.Allocate ((c + reallocGrowth mg c) * szT) alT).1 ≤ a ∧
                  a < (s.Allocate ((c + reallocGrowth mg c) * szT) alT).1 + c * szT
              then (s.Allocate ((c + reallocGrowth mg c) * szT) alT).2.mem
                    (o + (a - (s.Allocate ((c + reallocGrowth mg c) * szT) alT).1))
              else (s.Allocate ((c + reallocGrowth mg c) * szT) alT).2.mem a }) := by
  unfold ArenaState.Reallocate
  rw [if_neg h]

/-- The address returned by `Allocate` is never below the pre-call frontier
(for positive alignment, when the arena is well formed). -/
theorem Allocate_addr_ge (s : ArenaState) (sz al : Nat) (hal : 0 < al)
    (hce : s.curPtr ≤ s.endPtr) (hen : s.endPtr ≤ s.nextAddr) :
    s.curPtr ≤ (s.Allocate sz al).1 := by
  by_cases h : s.endPtr < align s.curPtr al + sz
  · rw [Allocate_newSlab s sz al h]
    simp only [slabHeaderSize]
    omega
  · rw [Allocate_fits s sz al (by omega)]
    exact align_ge s.curPtr hal

/-- Memory below the pre-call frontier is untouched by `Allocate` (the only
write is the fresh slab's header, which lives at the fresh address). -/
theorem Allocate_mem_below (s : ArenaState) (sz al : Nat)
    (hen : s.endPtr ≤ s.nextAddr) (a : Nat) (ha : a < s.endPtr) :
    (s.Allocate sz al).2.mem a = s.mem a := by
  by_cases h : s.endPtr < align s.curPtr al + sz
  · rw [Allocate_newSlab s sz al h]
    simp only
    rw [if_neg (by omega)]
  · rw [Allocate_fits s sz al (by omega)]

/-- C3: `Reallocate(Objects, Capacity, MinGrowth)`: if the region ends at
the frontier and the slab has room, the base address is unchanged, no byte
moves, and the capacity grows by exactly `MinGrowth`; otherwise a fresh
region of `Capacity + growth` elements at a strictly greater (hence
different) address is returned, with the old bytes copied intact and
`growth ≥ MinGrowth`, `growth ≥ 4`, `growth ≥ Capacity`. -/
theorem claim_C3_reallocate_grow (s : ArenaState) (o c mg szT alT : Nat)
    (halT : 0 < alT) (hobj : o + c * szT ≤ s.curPtr)
    (hce : s.curPtr ≤ s.endPtr) (hen : s.endPtr ≤ s.nextAddr) :
    (o + c * szT = s.curPtr ∧ s.curPtr + mg * szT ≤ s.endPtr →
      s.Reallocate o c mg szT alT =
        (o, c + mg, { s with curPtr := s.curPtr + mg * szT })) ∧
    (¬ (o + c * szT = s.curPtr ∧ s.curPtr + mg * szT ≤ s.endPtr) →
      o < (s.Reallocate o c mg szT alT).1 ∧
      (s.Reallocate o c mg szT alT).2.1 = c + reallocGrowth mg c ∧
      mg ≤ reallocGrowth mg c ∧ 4 ≤ reallocGrowth mg c ∧
      c ≤ reallocGrowth mg c ∧
      (∀ i, i < c * szT →
        (s.Reallocate o c mg szT alT).2.2.mem
            ((s.Reallocate o c mg szT alT).1 + i) = s.mem (o + i))) := by
  constructor
  · exact Reallocate_inplace s o c mg szT alT
  · intro h
    have hg := reallocGrowth_bounds mg c
    set g := reallocGrowth mg c with hgdef
    have hcopy := Reallocate_copy s o c mg szT alT h
    rw [← hgdef] at hcopy
    -- the address handed back by the inner Allocate
    have haddr : s.curPtr ≤ (s.Allocate ((c + g) * szT) alT).1 :=
      Allocate_addr_ge s _ alT halT hce hen
    have hne : o < (s.Reallocate o c mg szT alT).1 := by
      rw [hcopy]
      simp only
      by_cases h1 : o + c * szT = s.curPtr
      · -- the in-place condition failed on headroom, so the inner Allocate
        -- cannot fit either and opens a fresh slab past the old one
        have h2 : ¬ s.curPtr + mg * szT ≤ s.endPtr := fun h2 => h ⟨h1, h2⟩
        have hsz : s.curPtr + mg * szT ≤ align s.curPtr alT + (c + g) * szT := by
          have h3 : mg * szT ≤ g * szT := Nat.mul_le_mul_right szT hg.1
          have h4 : g * szT ≤ (c + g) * szT := Nat.mul_le_mul_right szT (by omega)
          have h5 := align_ge s.curPtr halT
          omega
        have hbig : s.endPtr < align s.curPtr alT + (c + g) * szT := by omega
        rw [Allocate_newSlab s _ alT hbig]
        simp only [slabHeaderSize]
        omega
      · have h1' : o + c * szT < s.curPtr := lt_of_le_of_ne hobj h1
        omega
    refine ⟨hne, ?_, hg.1, hg.2.1, by omega, ?_⟩
    · rw [hcopy]
    · intro i hi
      rw [hcopy]
      simp only
      rw [if_pos (by omega)]
      have hsub : (s.Allocate ((c + g) * szT) alT).1 + i -
          (s.Allocate ((c + g) * szT) alT).1 = i := by omega
      rw [hsub]
      exact Allocate_mem_below s _ alT hen (o + i) (by omega)

/-- Witness for C3: on `demoArena` (frontier 8), a region `[0, 4)` of one
element of size 4 does not end at the frontier, so `Reallocate` with
`MinGrowth = 1` copies it to a strictly greater address with growth
`reallocGrowth 1 1 = 4`. -/
theorem claim_C3_reallocate_grow_witness :
    0 < (demoArena.Reallocate 0 1 1 4 4).1 ∧
    (demoArena.Reallocate 0 1 1 4 4).2.1 = 1 + reallocGrowth 1 1 ∧
    1 ≤ reallocGrowth 1 1 ∧ 4 ≤ reallocGrowth 1 1 ∧
    1 ≤ reallocGrowth 1 1 ∧
    (∀ i, i < 1 * 4 →
      (demoArena.Reallocate 0 1 1 4 4).2.2.mem
          ((demoArena.Reallocate 0 1 1 4 4).1 + i) = demoArena.mem (0 + i)) := by
  exact (claim_C3_reallocate_grow demoArena 0 1 1 4 4 (by decide) (by decide)
      (by decide) (by decide)).2 (by decide)

/- ### The Demangler state -/

/-- Scalar payload of a `Node` (none, `Index`, or `Text`). -/
inductive Payload where
  | none : Payload
  | index : Nat → Payload
  | text : List Char → Payload
deriving DecidableEq

/-- The node tree: a kind (`Node::Kind`, modelled as `Nat`), an optional
scalar payload, and an ordered list of children. -/
inductive Node where
  | mk : Nat → Payload → List Node → Node

/-- Node::getKind. -/
def Node.getKind : Node → Nat
  | .mk k _ _ => k

/-- A `NodeWithPos` entry of the working stack. -/
structure NodeWithPos where
  node : Node
  pos : Nat

/-- Character-sentinel returned by `peekChar`/`nextChar` at end of input
(the `return 0` of the C code). -/
def sentinel : Char := Char.ofNat 0

/-- State of a `Demangler` session (the fields of the C++ class beyond the
arena).  `nodeStack` is held top-first (head = `back()` of the vector);
`words` models the `Words[MaxNumWords]` array together with `NumWords`
(its length), each entry a `StringRef` into the input as `(start, length)`;
`substitutions` models the `std::vector<NodePointer>`, whose entries are
nullable pointers. -/
structure DemanglerState where
  text : List Char
  pos : Nat
  nodeStack : List NodeWithPos
  substitutions : List (Option Node)
  pendingSubstitutions : List Nat
  words : List (Nat × Nat)

/-- Demangler::nextIf(StringRef): `Text.substr(Pos).startswith(str)`,
advancing `Pos` by `str.size()` on success. -/
def nextIfStr (s : DemanglerState) (str : List Char) : Bool × DemanglerState :=
  if str.isPrefixOf (s.text.drop s.pos) then
    (true, { s with pos := s.pos + str.length })
  else
    (false, s)

/-- Demangler::peekChar: sentinel `0` at or past end of input, `Text[Pos]`
otherwise. -/
def peekChar (s : DemanglerState) : Char :=
  if s.text.length ≤ s.pos then sentinel
  else s.text.getD s.pos sentinel

/-- Demangler::nextChar: sentinel `0` without advancing at or past end of
input, `Text[Pos++]` otherwise. -/
def nextChar (s : DemanglerState) : Char × DemanglerState :=
  if s.text.length ≤ s.pos then (sentinel, s)
  else (s.text.getD s.pos sentinel, { s with pos := s.pos + 1 })

/-- Demangler::nextIf(char): compares `peekChar()` with `c`, advancing by
one on equality. -/
def nextIfChar (s : DemanglerState) (c : Char) : Bool × DemanglerState :=
  if peekChar s ≠ c then (false, s)
  else (true, { s with pos := s.pos + 1 })

/-- Demangler::pushNode: pushes the node together with the current
position. -/
def pushNode (s : DemanglerState) (nd : Node) : DemanglerState :=
  { s with nodeStack := ⟨nd, s.pos⟩ :: s.nodeStack }

/-- Demangler::popNode(): removes and returns the top of the stack, or a
null result if the stack is empty. -/
def popNode (s : DemanglerState) : Option Node × DemanglerState :=
  match s.nodeStack with
  | [] => (Option.none, s)
  | nwp :: rest => (Option.some nwp.node, { s with nodeStack := rest })

/-- Demangler::popNode(Node::Kind): pops only when the top node's kind is
the requested one. -/
def popNodeKind (s : DemanglerState) (kind : Nat) : Option Node × DemanglerState :=
  match s.nodeStack with
  | [] => (Option.none, s)
  | nwp :: _ =>
      if nwp.node.getKind ≠ kind then (Option.none, s)
      else popNode s

/-- Demangler::popNode(Pred): pops only when the predicate accepts the top
node's kind. -/
def popNodePred (s : DemanglerState) (pred : Nat → Bool) :
    Option Node × DemanglerState :=
  match s.nodeStack with
  | [] => (Option.none, s)
  | nwp :: _ =>
      if ¬ pred nwp.node.getKind then (Option.none, s)
      else popNode s

/-- Demangler::addSubstitution: appends `Nd` only when it is non-null. -/
def addSubstitution (s : DemanglerState) (nd : Option Node) : DemanglerState :=
  match nd with
  | Option.some n => { s with substitutions := s.substitutions ++ [Option.some n] }
  | Option.none => s

/- ### Claim C6 -/

/-- C6: `popNode()` on an empty stack returns null; the kind and predicate
overloads return null leaving the state untouched when the stack is empty
or the top node's kind fails the check, and remove exactly the top entry
otherwise. -/
theorem claim_C6_popNode_discipline (s : DemanglerState) (kind : Nat)
    (pred : Nat → Bool) :
    (s.nodeStack = [] →
      popNode s = (Option.none, s) ∧
      popNodeKind s kind = (Option.none, s) ∧
      popNodePred s pred = (Option.none, s)) ∧
    (∀ n rest, s.nodeStack = n :: rest →
      popNode s = (Option.some n.node, { s with nodeStack := rest }) ∧
      (n.node.getKind ≠ kind → popNodeKind s kind = (Option.none, s)) ∧
      (n.node.getKind = kind →
        popNodeKind s kind = (Option.some n.node, { s with nodeStack := rest })) ∧
      (pred n.node.getKind = false → popNodePred s pred = (Option.none, s)) ∧
      (pred n.node.getKind = true →
        popNodePred s pred = (Option.some n.node, { s with nodeStack := rest }))) := by
  constructor
  · intro h
    refine ⟨?_, ?_, ?_⟩ <;> simp only [popNode, popNodeKind, popNodePred, h]
  · intro n rest h
    have hpop : popNode s = (Option.some n.node, { s with nodeStack := rest }) := by
      simp only [popNode, h]
    refine ⟨hpop, ?_, ?_, ?_, ?_⟩
    · intro hk
      simp only [popNodeKind, h, if_pos hk]
    · intro hk
      simp only [popNodeKind, h, hk]
      simpa using hpop
    · intro hk
      simp only [popNodePred, h, hk]
      simp
    · intro hk
      simp only [popNodePred, h, hk]
      simpa using hpop

/-- A sample node and demangler state for the witnesses. -/
def demoNode : Node := Node.mk 5 Payload.none []

/-- A sample demangler session over the two-character input `ab`. -/
def demoState : DemanglerState :=
  { text := ['a', 'b'], pos := 0, nodeStack := [], substitutions := [],
    pendingSubstitutions := [], words := [] }

/-- The sample session with `demoNode` (kind 5) on top of the stack. -/
def demoState1 : DemanglerState :=
  { demoState with nodeStack := [⟨demoNode, 1⟩] }

/-- Witness for C6: the empty stack yields null for all three overloads; a
stack holding one node of kind 5 refuses kind 7 untouched and pops kind
5. -/
theorem claim_C6_popNode_discipline_witness :
    (popNode demoState = (Option.none, demoState) ∧
      popNodeKind demoState 7 = (Option.none, demoState) ∧
      popNodePred demoState (fun k => decide (k = 7)) = (Option.none, demoState)) ∧
    popNodeKind demoState1 7 = (Option.none, demoState1) ∧
    popNodeKind demoState1 5 =
      (Option.some demoNode, { demoState1 with nodeStack := [] }) := by
  refine ⟨(claim_C6_popNode_discipline demoState 7 (fun k => decide (k = 7))).1 rfl,
    ?_, ?_⟩
  · exact (((claim_C6_popNode_discipline demoState1 7 (fun k => decide (k = 7))).2
      ⟨demoNode, 1⟩ [] rfl).2.1) (by decide)
  · exact (((claim_C6_popNode_discipline demoState1 5 (fun k => decide (k = 7))).2
      ⟨demoNode, 1⟩ [] rfl).2.2.1) (by decide)

/- ### Claim C8 -/

/-- C8: `peekChar`/`nextChar` return the sentinel `0` at or past the end of
the input instead of failing; in that case `nextChar` does not advance, so
`Pos` never grows past the input length. -/
theorem claim_C8_sentinel_total (s : DemanglerState) :
    (s.text.length ≤ s.pos →
      peekChar s = sentinel ∧ nextChar s = (sentinel, s)) ∧
    (s.pos ≤ s.text.length → (nextChar s).2.pos ≤ s.text.length) := by
  constructor
  · intro h
    unfold peekChar nextChar
    rw [if_pos h, if_pos h]
    exact ⟨rfl, rfl⟩
  · intro h
    unfold nextChar
    by_cases hend : s.text.length ≤ s.pos
    · rw [if_pos hend]
      exact h
    · rw [if_neg hend]
      simp only
      omega

/-- Witness for C8 at a concrete end-of-input state and a concrete
in-bounds state. -/
theorem claim_C8_sentinel_total_witness :
    (peekChar { demoState with pos := 2 } = sentinel ∧
      nextChar { demoState with pos := 2 } =
        (sentinel, { demoState with pos := 2 })) ∧
    (nextChar demoState).2.pos ≤ demoState.text.length := by
  exact ⟨(claim_C8_sentinel_total { demoState with pos := 2 }).1 (by decide),
    (claim_C8_sentinel_total demoState).2 (by decide)⟩

/- ### Claim C10 -/

theorem popNode_substitutions (s : DemanglerState) :
    (popNode s).2.substitutions = s.substitutions := by
  unfold popNode
  split <;> rfl

theorem popNodeKind_substitutions (s : DemanglerState) (kind : Nat) :
    (popNodeKind s kind).2.substitutions = s.substitutions := by
  unfold popNodeKind
  split
  · rfl
  · split
    · rfl
    · exact popNode_substitutions s

theorem popNodePred_substitutions (s : DemanglerState) (pred : Nat → Bool) :
    (popNodePred s pred).2.substitutions = s.substitutions := by
  unfold popNodePred
  split
  · rfl
  · split
    · rfl
    · exact popNode_substitutions s

/-- C10: `addSubstitution` appends a non-null node and ignores a null one,
so a substitution list free of null entries stays free of null entries;
the scanner and stack operations never touch the substitution list. -/
theorem claim_C10_addSubstitution_nonnull (s : DemanglerState) (nd : Node) :
    addSubstitution s (Option.some nd) =
      { s with substitutions := s.substitutions ++ [Option.some nd] } ∧
    addSubstitution s Option.none = s ∧
    (Option.none ∉ s.substitutions →
      ∀ x : Option Node, Option.none ∉ (addSubstitution s x).substitutions) ∧
    (∀ (str : List Char) (c : Char) (kind : Nat) (pred : Nat → Bool) (nd2 : Node),
      (nextIfStr s str).2.substitutions = s.substitutions ∧
      (nextIfChar s c).2.substitutions = s.substitutions ∧
      (nextChar s).2.substitutions = s.substitutions ∧
      (popNode s).2.substitutions = s.substitutions ∧
      (popNodeKind s kind).2.substitutions = s.substitutions ∧
      (popNodePred s pred).2.substitutions = s.substitutions ∧
      (pushNode s nd2).substitutions = s.substitutions) := by
  refine ⟨rfl, rfl, ?_, ?_⟩
  · intro h x
    cases x with
    | none => exact h
    | some n =>
        simp only [addSubstitution, List.mem_append, List.mem_singleton]
        rintro (hl | hr)
        · exact h hl
        · exact Option.noConfusion hr
  · intro str c kind pred nd2
    refine ⟨?_, ?_, ?_, popNode_substitutions s,
      popNodeKind_substitutions s kind, popNodePred_substitutions s pred, rfl⟩
    · unfold nextIfStr
      split <;> rfl
    · unfold nextIfChar
      split <;> rfl
    · unfold nextChar
      split <;> rfl

/-- Witness for C10: starting from the empty substitution list, recording a
non-null node keeps the list null-free. -/
theorem claim_C10_addSubstitution_nonnull_witness :
    ∀ x : Option Node,
      Option.none ∉ (addSubstitution demoState x).substitutions := by
  exact (claim_C10_addSubstitution_nonnull demoState demoNode).2.2.1
    (by simp [demoState])

/- ### Claim C7 -/

theorem isPrefixOf_single (c : Char) (l : List Char) :
    [c].isPrefixOf l = true ↔ l.head? = Option.some c := by
  cases l with
  | nil => simp [List.isPrefixOf]
  | cons a t =>
      simp only [List.isPrefixOf, Bool.and_true, List.head?]
      constructor
      · intro h
        have : c = a := by
          simpa using h
        rw [this]
      · intro h
        have : a = c := by
          simpa using h
        simp [this]

theorem head?_drop_demangler (s : DemanglerState) (h : s.pos < s.text.length) :
    (s.text.drop s.pos).head? = Option.some (s.text.getD s.pos sentinel) := by
  rw [List.head?_drop]
  rw [List.getElem?_eq_getElem h]
  rw [List.getD_eq_getElem s.text sentinel h]

/-- In bounds, `nextIfChar` matches the prefix specification for every
character, the NUL sentinel included. -/
theorem nextIfChar_inbounds (s : DemanglerState) (c : Char)
    (hlt : s.pos < s.text.length) :
    ([c].isPrefixOf (s.text.drop s.pos) = true →
      nextIfChar s c = (true, { s with pos := s.pos + 1 })) ∧
    ([c].isPrefixOf (s.text.drop s.pos) = false →
      nextIfChar s c = (false, s)) := by
  have hpos : ¬ s.text.length ≤ s.pos := by omega
  have hhead := head?_drop_demangler s hlt
  have hpeek : peekChar s = s.text.getD s.pos sentinel := by
    unfold peekChar
    rw [if_neg hpos]
  constructor
  · intro h
    have := (isPrefixOf_single c _).mp h
    rw [hhead] at this
    have hcc : s.text.getD s.pos sentinel = c := Option.some.inj this
    unfold nextIfChar
    rw [if_neg (by rw [hpeek, hcc]; simp)]
  · intro h
    have hne : (s.text.drop s.pos).head? ≠ Option.some c := by
      intro heq
      have := (isPrefixOf_single c _).mpr heq
      rw [this] at h
      exact Bool.noConfusion h
    rw [hhead] at hne
    have : peekChar s ≠ c := by
      rw [hpeek]
      intro hx
      exact hne (by rw [hx])
    unfold nextIfChar
    rw [if_pos this]

/-- A corrected form of C7.  The string overload behaves exactly as the
claim says, and so does the single-character overload for every character
other than the NUL sentinel (and, before the end of the input, for NUL as
well).  The one deviation: comparing against `peekChar`'s end-of-input
sentinel, `nextIf('\x00')` at or past the end of the input returns `true`
and advances `Pos` by 1 even though the input at `Pos` does not start with
that character. -/
theorem claim_C7_nextIf_amended (s : DemanglerState) (str : List Char) (c : Char) :
    (str.isPrefixOf (s.text.drop s.pos) = true →
      nextIfStr s str = (true, { s with pos := s.pos + str.length })) ∧
    (str.isPrefixOf (s.text.drop s.pos) = false →
      nextIfStr s str = (false, s)) ∧
    (c ≠ sentinel ∨ s.pos < s.text.length →
      ([c].isPrefixOf (s.text.drop s.pos) = true →
        nextIfChar s c = (true, { s with pos := s.pos + 1 })) ∧
      ([c].isPrefixOf (s.text.drop s.pos) = false →
        nextIfChar s c = (false, s))) ∧
    (s.text.length ≤ s.pos →
      nextIfChar s sentinel = (true, { s with pos := s.pos + 1 })) := by
  refine ⟨?_, ?_, ?_, ?_⟩
  · intro h
    unfold nextIfStr
    rw [if_pos h]
  · intro h
    unfold nextIfStr
    rw [if_neg (by simp [h])]
  · intro hc
    by_cases hpos : s.text.length ≤ s.pos
    · have hcs : c ≠ sentinel := by
        rcases hc with hc | hc
        · exact hc
        · omega
      have hdrop : s.text.drop s.pos = [] := List.drop_eq_nil_of_le hpos
      constructor
      · intro h
        rw [hdrop] at h
        simp [List.isPrefixOf] at h
      · intro _
        unfold nextIfChar peekChar
        rw [if_pos hpos]
        rw [if_pos (Ne.symm hcs)]
    · exact nextIfChar_inbounds s c (by omega)
  · intro hpos
    unfold nextIfChar peekChar
    rw [if_pos hpos]
    simp

/-- Counterexample to C7 as stated: with the empty remaining input at
`Pos = 2` of `demoState`, `nextIf('\x00')` returns `true` and advances the
cursor although the input at `Pos` does not start with that character (the
claim demands `false` with the state unchanged). -/
theorem claim_C7_nextIf_counterexample :
    (nextIfChar { demoState with pos := 2 } sentinel).1 = true ∧
    [sentinel].isPrefixOf
        (({ demoState with pos := 2 } : DemanglerState).text.drop 2) = false ∧
    (nextIfChar { demoState with pos := 2 } sentinel).2.pos = 3 := by
  refine ⟨?_, by decide, ?_⟩ <;> rfl

/-- Witness for the amended C7 at concrete inputs: matching and failing
string literals, a matching non-NUL character, and the NUL-at-end case. -/
theorem claim_C7_nextIf_amended_witness :
    nextIfStr demoState ['a', 'b'] = (true, { demoState with pos := 2 }) ∧
    nextIfStr demoState ['b'] = (false, demoState) ∧
    nextIfChar demoState 'a' = (true, { demoState with pos := 1 }) ∧
    nextIfChar { demoState with pos := 2 } sentinel =
      (true, { ({ demoState with pos := 2 } : DemanglerState) with pos := 2 + 1 }) := by
  refine ⟨?_, ?_, ?_, ?_⟩
  · exact (claim_C7_nextIf_amended demoState ['a', 'b'] 'a').1 (by decide)
  · exact (claim_C7_nextIf_amended demoState ['b'] 'a').2.1 (by decide)
  · exact ((claim_C7_nextIf_amended demoState ['a'] 'a').2.2.1 (by decide)).1
      (by decide)
  · exact (claim_C7_nextIf_amended { demoState with pos := 2 } [] sentinel).2.2.2
      (by decide)

/- ### Claim C9 -/

/-- Demangler::MaxNumWords: capacity of the `Words` array. -/
def MaxNumWords : Nat := 26

/-- Modelled from the spec: the word-recording step of identifier parsing
(`demangleIdentifier` lives in `Demangler.cpp`, which is not among the
sources).  Per the spec the word list is a fixed-capacity (26) append-only
sequence of text spans, and an attempt to record a word beyond capacity is
a parse failure (`none`), not a silent skip. -/
def recordWord (s : DemanglerState) (w : Nat × Nat) : Option DemanglerState :=
  if s.words.length < MaxNumWords then
    Option.some { s with words := s.words ++ [w] }
  else
    Option.none

/-- Modelled from the spec: resolution of a word-compression code
(`demangleIdentifier` in `Demangler.cpp`, not among the sources).  A code
addressing index `i` is valid only for `0 ≤ i < NumWords`; anything else is
a parse failure (`none`). -/
def lookupWord (s : DemanglerState) (i : Nat) : Option (Nat × Nat) :=
  if h : i < s.words.length then Option.some (s.words.get ⟨i, h⟩)
  else Option.none

/-- C9: the word list never exceeds 26 entries (recording keeps the bound
and a 27th attempt fails), and a word code addressing index `i` succeeds
exactly when `i` is below the number of recorded words, resolving to the
`i`-th recorded word. -/
theorem claim_C9_word_list_bounds (s : DemanglerState) (w : Nat × Nat) (i : Nat) :
    (∀ s2, recordWord s w = Option.some s2 →
      s2.words.length ≤ MaxNumWords ∧ s2.words = s.words ++ [w]) ∧
    (recordWord s w = Option.none ↔ MaxNumWords ≤ s.words.length) ∧
    ((lookupWord s i).isSome ↔ i < s.words.length) ∧
    (∀ h : i < s.words.length, lookupWord s i = Option.some (s.words.get ⟨i, h⟩)) ∧
    (s.words.length ≤ i → lookupWord s i = Option.none) := by
  refine ⟨?_, ?_, ?_, ?_, ?_⟩
  · intro s2 h
    unfold recordWord at h
    by_cases hlen : s.words.length < MaxNumWords
    · rw [if_pos hlen] at h
      cases h
      constructor
      · simp only [List.length_append, List.length_singleton]
        omega
      · rfl
    · rw [if_neg hlen] at h
      exact Option.noConfusion h
  · unfold recordWord
    by_cases hlen : s.words.length < MaxNumWords
    · rw [if_pos hlen]
      simp
      omega
    · rw [if_neg hlen]
      simp
      omega
  · unfold lookupWord
    by_cases hlen : i < s.words.length
    · rw [dif_pos hlen]
      simp [hlen]
    · rw [dif_neg hlen]
      simp [hlen]
  · intro h
    unfold lookupWord
    rw [dif_pos h]
  · intro h
    unfold lookupWord
    rw [dif_neg (by omega)]

/-- Witness for C9: with one recorded word, index 0 resolves to it, index 1
fails; with a full 26-entry list a 27th recording attempt fails. -/
theorem claim_C9_word_list_bounds_witness :
    (∀ s2, recordWord { demoState with words := [(0, 1)] } (1, 1) = Option.some s2 →
      s2.words.length ≤ MaxNumWords ∧ s2.words = [(0, 1)] ++ [(1, 1)]) ∧
    lookupWord { demoState with words := [(0, 1)] } 0 = Option.some (0, 1) ∧
    lookupWord { demoState with words := [(0, 1)] } 1 = Option.none ∧
    recordWord { demoState with words := List.replicate 26 (0, 1) } (1, 1) =
      Option.none := by
  refine ⟨(claim_C9_word_list_bounds _ (1, 1) 0).1, ?_, ?_, ?_⟩
  · exact (claim_C9_word_list_bounds { demoState with words := [(0, 1)] }
      (1, 1) 0).2.2.2.1 (by decide)
  · exact (claim_C9_word_list_bounds { demoState with words := [(0, 1)] }
      (1, 1) 1).2.2.2.2 (by decide)
  · exact (claim_C9_word_list_bounds { demoState with words := List.replicate 26 (0, 1) }
      (1, 1) 0).2.1.mpr (by decide)

/- ### Claim C1 -/

/-- The mangling prefix `_T0` expected by `demangleSymbol`. -/
def manglingPrefix : List Char := ['_', 'T', '0']

/-- Fresh session state over a given input, as set up by `Demangler::init`. -/
def initState (text : List Char) : DemanglerState :=
  { text := text, pos := 0, nodeStack := [], substitutions := [],
    pendingSubstitutions := [], words := [] }

/-- Modelled from the spec: the top-level parse loop `parseAndPushNodes`
(`Demangler.cpp` is not among the sources).  The operator dispatcher
`demangleOperator` is abstracted as an arbitrary `step` function producing
a node (or a null result) and a successor state; the loop dispatches while
input remains, pushes each produced node (with the current position), and
aborts with failure on a null production.  `fuel` bounds the number of
iterations, standing in for the termination argument of the real loop. -/
def parseLoop (step : DemanglerState → Option Node × DemanglerState) :
    Nat → DemanglerState → Bool × DemanglerState
  | 0, s => (true, s)
  | fuel + 1, s =>
      if s.pos < s.text.length then
        match step s with
        | (Option.none, s2) => (false, s2)
        | (Option.some nd, s2) => parseLoop step fuel (pushNode s2 nd)
      else
        (true, s)

/-- Modelled from the spec: `Demangler::demangleSymbol` (defined in
`Demangler.cpp`, not among the sources).  It initializes the session,
consumes the mangling prefix, runs the top-level loop, and succeeds only
when the loop succeeded and exactly one node remains on the working
stack; everything else collapses to a null result. -/
def demangleSymbolM (step : DemanglerState → Option Node × DemanglerState)
    (fuel : Nat) (text : List Char) : Option Node :=
  let p := nextIfStr (initState text) manglingPrefix
  if p.1 = false then
    Option.none
  else
    let r := parseLoop step fuel p.2
    if r.1 = false then
      Option.none
    else
      match r.2.nodeStack with
      | [nwp] => Option.some nwp.node
      | _ => Option.none

/-- Modelled from the spec: `Demangler::demangleType` differs from
`demangleSymbol` only in starting directly in the type grammar, without
the mangling prefix. -/
def demangleTypeM (step : DemanglerState → Option Node × DemanglerState)
    (fuel : Nat) (text : List Char) : Option Node :=
  let r := parseLoop step fuel (initState text)
  if r.1 = false then
    Option.none
  else
    match r.2.nodeStack with
    | [nwp] => Option.some nwp.node
    | _ => Option.none

/-- C1: `demangleSymbol`/`demangleType` return a node exactly when the
prefix matched (for symbols), the top-level loop did not hit a null
production, and exactly one node remains on the working stack — that node
being the returned tree; any other stack depth or failure yields a null
result, so no partial tree reaches the caller. -/
theorem claim_C1_entry_points_total (step : DemanglerState → Option Node × DemanglerState)
    (fuel : Nat) (text : List Char) :
    ((demangleSymbolM step fuel text).isSome ↔
      ((nextIfStr (initState text) manglingPrefix).1 = true ∧
        (parseLoop step fuel (nextIfStr (initState text) manglingPrefix).2).1 = true ∧
        (parseLoop step fuel
          (nextIfStr (initState text) manglingPrefix).2).2.nodeStack.length = 1)) ∧
    (∀ nwp,
      (nextIfStr (initState text) manglingPrefix).1 = true →
      (parseLoop step fuel (nextIfStr (initState text) manglingPrefix).2).1 = true →
      (parseLoop step fuel
          (nextIfStr (initState text) manglingPrefix).2).2.nodeStack = [nwp] →
      demangleSymbolM step fuel text = Option.some nwp.node) ∧
    ((demangleTypeM step fuel text).isSome ↔
      ((parseLoop step fuel (initState text)).1 = true ∧
        (parseLoop step fuel (initState text)).2.nodeStack.length = 1)) ∧
    (∀ nwp,
      (parseLoop step fuel (initState text)).1 = true →
      (parseLoop step fuel (initState text)).2.nodeStack = [nwp] →
      demangleTypeM step fuel text = Option.some nwp.node) := by
  refine ⟨?_, ?_, ?_, ?_⟩
  · unfold demangleSymbolM
    rcases hp : (nextIfStr (initState text) manglingPrefix).1 with _ | _
    · simp [hp]
    · simp only [hp, Bool.true_eq_false, if_false, if_neg]
      rcases hr : (parseLoop step fuel (nextIfStr (initState text) manglingPrefix).2).1
        with _ | _
      · simp [hr]
      · simp only [hr]
        rcases hstk : (parseLoop step fuel
            (nextIfStr (initState text) manglingPrefix).2).2.nodeStack
          with _ | ⟨a, _ | ⟨b, tl⟩⟩ <;> simp [hstk]
  · intro nwp hp hr hstk
    unfold demangleSymbolM
    simp only [hp, hr, hstk]
    rfl
  · unfold demangleTypeM
    rcases hr : (parseLoop step fuel (initState text)).1 with _ | _
    · simp [hr]
    · simp only [hr]
      rcases hstk : (parseLoop step fuel (initState text)).2.nodeStack
        with _ | ⟨a, _ | ⟨b, tl⟩⟩ <;> simp [hstk]
  · intro nwp hr hstk
    unfold demangleTypeM
    simp only [hr, hstk]
    rfl

/-- Witness for C1: a step that parses one character into a leaf node makes
`demangleSymbolM` succeed on `_T0a` with exactly one node on the stack, and
`demangleTypeM` succeed on `a`. -/
theorem claim_C1_entry_points_total_witness :
    demangleSymbolM
        (fun s => (Option.some demoNode, { s with pos := s.pos + 1 })) 2
        ['_', 'T', '0', 'a'] = Option.some demoNode ∧
    demangleTypeM
        (fun s => (Option.some demoNode, { s with pos := s.pos + 1 })) 2
        ['a'] = Option.some demoNode := by
  constructor
  · exact (claim_C1_entry_points_total
      (fun s => (Option.some demoNode, { s with pos := s.pos + 1 })) 2
      ['_', 'T', '0', 'a']).2.1 ⟨demoNode, 4⟩ (by decide) (by decide) (by rfl)
  · exact (claim_C1_entry_points_total
      (fun s => (Option.some demoNode, { s with pos := s.pos + 1 })) 2
      ['a']).2.2.2 ⟨demoNode, 1⟩ (by decide) (by rfl)

end SwiftDemangle
